import Mathlib

/-!
A verification development for the filebunny file-manager CLI.

The Python sources (src/filebunny/storage.py, manager.py, cli.py) are
shallowly embedded below: absolute filesystem paths become lists of
components, the filesystem becomes a finite association list from paths to
nodes, the durable record file becomes an inductive classifying its
possible contents, and the CLI entry point becomes a function from the
parsed invocation to an outcome value.
-/

set_option autoImplicit false

namespace FileBunny

/-- An absolute filesystem path: the list of its components below the root. -/
abbrev AbsPath := List String

/-- A parsed pathlib path (`pathlib.Path`): whether it is absolute, plus its
components.  Components may still contain `.` and `..`; `normalize` collapses
them the way `Path.resolve` does. -/
structure PurePath where
  absolute : Bool
  parts : List String
  deriving DecidableEq

/-- Python `Path.__truediv__` (the `/` operator): `base / p` is `p` itself when
`p` is absolute, and the concatenation otherwise. -/
def joinPath (base : AbsPath) (p : PurePath) : List String :=
  if p.absolute then p.parts else base ++ p.parts

/-- The lexical part of `Path.resolve`: drop `.` and empty components and
collapse `..` against the accumulated path (at the root, `..` stays put). -/
def normalize (parts : List String) : AbsPath :=
  parts.foldl
    (fun acc c =>
      if c = "." ∨ c = "" then acc
      else if c = ".." then acc.dropLast
      else acc ++ [c]) []

/-- A filesystem node: a regular file with its contents, a directory, or a
symbolic link holding an absolute target path. -/
inductive Node where
  | file (contents : String)
  | dir
  | symlink (target : AbsPath)
  deriving DecidableEq

/-- The filesystem: a finite association list from absolute paths to nodes.
The root directory is implicit (it always exists and is a directory). -/
abbrev FS := List (AbsPath × Node)

/-- Look up the node stored at a path (first entry wins). -/
def fsFind (fs : FS) (p : AbsPath) : Option Node :=
  match fs with
  | [] => none
  | (q, n) :: rest => if q = p then some n else fsFind rest p

/-- Remove the entry stored exactly at `p` (descendants are untouched). -/
def fsRemove (p : AbsPath) : FS → FS
  | [] => []
  | e :: rest => if e.1 = p then fsRemove p rest else e :: fsRemove p rest

/-- Insert or overwrite the node at `p`. -/
def fsInsert (p : AbsPath) (n : Node) (fs : FS) : FS :=
  (p, n) :: fsRemove p fs

/-- `os.path.exists` on an already-resolved path: the root always exists,
other paths exist when the filesystem has an entry for them. -/
def pexists (fs : FS) (p : AbsPath) : Bool :=
  p = [] || (fsFind fs p).isSome

/-- `Path.is_dir` on an already-resolved path. -/
def isDir (fs : FS) (p : AbsPath) : Bool :=
  p = [] || decide (fsFind fs p = some Node.dir)

/-- Follow a chain of symbolic links sitting at the resolved path itself,
with fuel bounding the chain length (cycles simply exhaust the fuel). -/
def followLinks (fs : FS) : Nat → AbsPath → AbsPath
  | 0, p => p
  | fuel + 1, p =>
    match fsFind fs p with
    | some (Node.symlink t) => followLinks fs fuel (normalize t)
    | _ => p

/-- Model of `Path.resolve()`: lexical normalization followed by resolution of
a symbolic link at the final path.  (Symbolic links in intermediate
components are outside this model; the claims below only exercise links in
the final component.) -/
def resolvePath (fs : FS) (parts : List String) : AbsPath :=
  followLinks fs (fs.length + 1) (normalize parts)

/-- `q` is `d` itself or a descendant of `d`. -/
def underPath (d q : AbsPath) : Bool :=
  decide (q.take d.length = d)

/-- `shutil.rmtree`: remove the directory and everything below it.  Symbolic
link entries inside the tree are removed as entries; their targets stay. -/
def rmtree : FS → AbsPath → FS
  | [], _ => []
  | e :: rest, d => if underPath d e.1 then rmtree rest d else e :: rmtree rest d

/-- The single component name of the last path element, as a one-element
list (empty for the root). -/
def lastName (p : AbsPath) : List String :=
  match p.getLast? with
  | some n => [n]
  | none => []

/-- The names of the immediate children of directory `d`. -/
def childNames (fs : FS) (d : AbsPath) : List String :=
  fs.filterMap (fun e => if e.1.dropLast = d ∧ e.1 ≠ [] then e.1.getLast? else none)

/-- All entries at or below `s`, transplanted below `d` instead. -/
def remapEntries (fs : FS) (s d : AbsPath) : FS :=
  fs.filterMap (fun e =>
    if underPath s e.1 then some (d ++ e.1.drop s.length, e.2) else none)

/-- Relocation of a subtree, as performed by `os.rename` / `shutil.move`:
the entries below `s` reappear below `d`, everything else is kept. -/
def relocate (fs : FS) (s d : AbsPath) : FS :=
  remapEntries fs s d ++ fs.filter (fun e => !underPath s e.1)

/-- `os.makedirs` behavior (`Path.mkdir(parents=True, exist_ok=True)`):
walk the components, reusing existing directories, creating missing ones, and
failing if some component exists but is not a directory. -/
def mkdirAll (fs : FS) (pre : AbsPath) (rest : List String) : Except Unit FS :=
  match rest with
  | [] => .ok fs
  | c :: cs =>
    let q := pre ++ [c]
    match fsFind fs q with
    | some Node.dir => mkdirAll fs q cs
    | some _ => .error ()
    | none => mkdirAll (fsInsert q Node.dir fs) q cs

end FileBunny

namespace FileBunny

/-- The Python exceptions the embedded operations can raise. -/
inductive PyErr where
  | unicodeDecodeError
  | typeError
  | notFound (p : AbsPath)
  | notADirectory (p : AbsPath)
  | fileExists (p : AbsPath)
  deriving DecidableEq

/-- `mkdirAll` with the error mapped to the `FileExistsError` the OS raises
for a non-directory component. -/
def mkdirAllE (fs : FS) (pre : AbsPath) (rest : List String) : Except PyErr FS :=
  match mkdirAll fs pre rest with
  | .ok fs2 => .ok fs2
  | .error _ => .error (.fileExists (pre ++ rest))

/-- `Path.touch(exist_ok=True)`: an existing node is left alone (only its
mtime, which this model does not track, is updated); a missing file is
created empty, provided its parent directory exists. -/
def touchFile (fs : FS) (p : AbsPath) : Except PyErr FS :=
  match fsFind fs p with
  | some _ => .ok fs
  | none =>
    if isDir fs p.dropLast then .ok (fsInsert p (Node.file "") fs)
    else .error (.notFound p)

/-- The dataclass `State` of storage.py: the single persisted field, the
last spot, kept here as its parsed absolute path. -/
structure State where
  last_spot : AbsPath
  deriving DecidableEq

/-- The possible contents of the durable record file `spot.json`, classified
by how `Path.read_text`, `json.loads` and `State(**data)` behave on them:
the file may be absent, hold bytes that do not decode as UTF-8, hold text
that is not valid JSON, hold valid JSON that is not exactly an object with
the single key last_spot (so `State(**data)` raises `TypeError`), or hold a
complete record.  `json.dumps`/`json.loads` round-trip the path string
verbatim, so a complete record is represented by the parsed path. -/
inductive DiskContent where
  | missing
  | notUtf8
  | notJson
  | jsonNotRecord
  | record (last_spot : AbsPath)
  deriving DecidableEq

/-- `json.dumps(asdict(state))`: serializing a `State` always yields a
complete record. -/
def serializeState (st : State) : DiskContent :=
  .record st.last_spot

/-- `Storage.read` (storage.py lines 23-31): a missing file yields the real
process working directory; the `try` block catches only
`json.JSONDecodeError`, so undecodable bytes raise `UnicodeDecodeError` and
well-formed JSON of the wrong shape raises `TypeError`, both uncaught. -/
def Storage.read (content : DiskContent) (realCwd : AbsPath) : Except PyErr State :=
  match content with
  | .missing => .ok ⟨realCwd⟩
  | .notUtf8 => .error .unicodeDecodeError
  | .notJson => .ok ⟨realCwd⟩
  | .jsonNotRecord => .error .typeError
  | .record s => .ok ⟨s⟩

/-- The contents of the per-user configuration directory: the record file
`spot.json` and, while a write is in flight, the temporary file `spot.tmp`. -/
structure ConfigDir where
  record : DiskContent
  tmp : Option DiskContent
  deriving DecidableEq

/-- The end state of `Storage.write` (storage.py lines 33-37): the serialized
record has been renamed over the record file and the temporary file is gone
(any previous record is overwritten unconditionally). -/
def Storage.write (_cd : ConfigDir) (st : State) : ConfigDir :=
  { record := serializeState st, tmp := none }

/-- The sequence of on-disk states the configuration directory passes through
during `Storage.write`: the initial state, a mid-`write_text` state in which
the temporary file holds arbitrary partial contents (`write_text` itself is
not atomic), the state after `write_text` completed, and the state after
`Path.replace` atomically renamed the temporary file over the record. -/
def writeSteps (cd : ConfigDir) (st : State) (partialContent : DiskContent) :
    List ConfigDir :=
  [cd,
   { cd with tmp := some partialContent },
   { cd with tmp := some (serializeState st) },
   Storage.write cd st]

/-- `PurePath.stem` for a file name with a plain dot extension: the name with
its last extension removed. -/
def stemOf (name : String) : String :=
  let pieces := name.splitOn "."
  if pieces.length ≥ 2 then String.intercalate "." pieces.dropLast else name

/-- `Path.with_suffix`: replace the extension of the final component. -/
def withSuffix : AbsPath → String → AbsPath
  | [], _ => []
  | [c], suffix => [stemOf c ++ suffix]
  | c :: rest, suffix => c :: withSuffix rest suffix

/-- The record file path chosen in `Storage.__init__`: `spot.json` inside the
per-user configuration directory. -/
def storagePath (configDir : AbsPath) : AbsPath :=
  configDir ++ ["spot.json"]

/-- The temporary file path `self.path.with_suffix(".tmp")` used by
`Storage.write`. -/
def tmpStoragePath (configDir : AbsPath) : AbsPath :=
  withSuffix (storagePath configDir) ".tmp"

end FileBunny

namespace FileBunny

/-- The in-memory `FileManager` state: its current directory `self.cwd`. -/
structure FM where
  cwd : AbsPath
  deriving DecidableEq

/-- The world a `FileManager` operation can touch: the filesystem and the
contents of the durable record file. -/
structure World where
  fs : FS
  store : DiskContent
  deriving DecidableEq

/-- `FileManager.__init__`: read the storage and adopt the persisted spot as
the current directory.  A read failure propagates. -/
def mkFileManager (store : DiskContent) (realCwd : AbsPath) : Except PyErr FM :=
  match Storage.read store realCwd with
  | .ok st => .ok ⟨st.last_spot⟩
  | .error e => .error e

/-- `FileManager.spot`: the current directory, unchanged. -/
def FM.spot (fm : FM) : AbsPath :=
  fm.cwd

/-- The filesystem-level part of `FileManager.hop` (manager.py lines 25-35):
default the argument to the user home directory, resolve it against the
current directory when relative, and check existence and directoriness in
the order the source does. -/
def hopFS (home : AbsPath) (fm : FM) (fs : FS) (path : Option PurePath) :
    Except PyErr AbsPath :=
  let np : PurePath := match path with
    | some p => p
    | none => ⟨true, home⟩
  let target := resolvePath fs (joinPath fm.cwd np)
  if pexists fs target then
    if isDir fs target then .ok target
    else .error (.notADirectory target)
  else .error (.notFound target)

/-- `FileManager.hop`: on success the current directory becomes the resolved
target and `_persist` writes `State(last_spot=str(self.cwd))` to storage; the
exceptions are raised before any assignment, so on error nothing changes. -/
def FM.hop (home : AbsPath) (fm : FM) (w : World) (path : Option PurePath) :
    Except PyErr AbsPath × FM × World :=
  match hopFS home fm w.fs path with
  | .ok t => (.ok t, ⟨t⟩, { w with store := serializeState ⟨t⟩ })
  | .error e => (.error e, fm, w)

/-- The filesystem-level part of `FileManager.list`: the child names of the
current directory, or the error `iterdir` raises on a non-directory. -/
def listFS (fm : FM) (fs : FS) : Except PyErr (List String) :=
  if isDir fs fm.cwd then .ok (childNames fs fm.cwd)
  else if pexists fs fm.cwd then .error (.notADirectory fm.cwd)
  else .error (.notFound fm.cwd)

/-- `FileManager.list` (manager.py line 47-49). -/
def FM.list (fm : FM) (w : World) : Except PyErr (List String) × World :=
  (listFS fm w.fs, w)

/-- The filesystem-level part of `FileManager.copy` (manager.py lines 54-60):
`shutil.copytree` when the source is a directory (failing when the
destination exists), `shutil.copy2` otherwise (copying into an existing
destination directory under the source name). -/
def copyFS (fm : FM) (fs : FS) (src dst : PurePath) : Except PyErr Unit × FS :=
  let s := resolvePath fs (joinPath fm.cwd src)
  let d := resolvePath fs (joinPath fm.cwd dst)
  if isDir fs s then
    if pexists fs d then (.error (.fileExists d), fs)
    else
      match mkdirAllE fs [] d with
      | .ok fs1 => (.ok (), remapEntries fs s d ++ fs1)
      | .error e => (.error e, fs)
  else
    match fsFind fs s with
    | some (Node.file c) =>
      let dd := if isDir fs d then d ++ lastName s else d
      (.ok (), fsInsert dd (Node.file c) fs)
    | _ => (.error (.notFound s), fs)

/-- `FileManager.copy`. -/
def FM.copy (fm : FM) (w : World) (src dst : PurePath) : Except PyErr Unit × World :=
  ((copyFS fm w.fs src dst).1, { w with fs := (copyFS fm w.fs src dst).2 })

/-- The filesystem-level part of `FileManager.move` (`shutil.move`): a
missing source fails; an existing destination directory receives the source
inside it; otherwise the source subtree is relocated to the destination. -/
def moveFS (fm : FM) (fs : FS) (src dst : PurePath) : Except PyErr Unit × FS :=
  let s := resolvePath fs (joinPath fm.cwd src)
  let d := resolvePath fs (joinPath fm.cwd dst)
  if pexists fs s then
    let dd := if isDir fs d then d ++ lastName s else d
    (.ok (), relocate fs s dd)
  else (.error (.notFound s), fs)

/-- `FileManager.move`. -/
def FM.move (fm : FM) (w : World) (src dst : PurePath) : Except PyErr Unit × World :=
  ((moveFS fm w.fs src dst).1, { w with fs := (moveFS fm w.fs src dst).2 })

/-- The filesystem-level part of `FileManager.rename` (`Path.rename`, an
`os.rename`): a missing source fails, otherwise the subtree is relocated
(an existing destination file is overwritten). -/
def renameFS (fm : FM) (fs : FS) (src dst : PurePath) : Except PyErr Unit × FS :=
  let s := resolvePath fs (joinPath fm.cwd src)
  let d := resolvePath fs (joinPath fm.cwd dst)
  if pexists fs s then (.ok (), relocate fs s d)
  else (.error (.notFound s), fs)

/-- `FileManager.rename`. -/
def FM.rename (fm : FM) (w : World) (src dst : PurePath) : Except PyErr Unit × World :=
  ((renameFS fm w.fs src dst).1, { w with fs := (renameFS fm w.fs src dst).2 })

/-- The filesystem-level part of `FileManager.delete` (manager.py lines
72-78): the path is fully resolved first; a directory target is removed with
`shutil.rmtree`, anything else is unlinked, and unlinking a missing target
raises `FileNotFoundError` (`missing_ok=False`). -/
def deleteFS (fm : FM) (fs : FS) (path : PurePath) : Except PyErr Unit × FS :=
  let target := resolvePath fs (joinPath fm.cwd path)
  if isDir fs target then (.ok (), rmtree fs target)
  else
    match fsFind fs target with
    | some _ => (.ok (), fsRemove target fs)
    | none => (.error (.notFound target), fs)

/-- `FileManager.delete`. -/
def FM.delete (fm : FM) (w : World) (path : PurePath) : Except PyErr Unit × World :=
  ((deleteFS fm w.fs path).1, { w with fs := (deleteFS fm w.fs path).2 })

/-- The filesystem-level part of `FileManager.dig` (`mkdir -p` behavior,
returning the resolved absolute path). -/
def digFS (fm : FM) (fs : FS) (path : PurePath) : Except PyErr AbsPath × FS :=
  let target := resolvePath fs (joinPath fm.cwd path)
  match mkdirAllE fs [] target with
  | .ok fs2 => (.ok target, fs2)
  | .error e => (.error e, fs)

/-- `FileManager.dig`. -/
def FM.dig (fm : FM) (w : World) (path : PurePath) : Except PyErr AbsPath × World :=
  ((digFS fm w.fs path).1, { w with fs := (digFS fm w.fs path).2 })

/-- The filesystem-level part of `FileManager.carrot` (manager.py lines
99-105): resolve the target, create the missing parents, then touch the
file without truncating it. -/
def carrotFS (fm : FM) (fs : FS) (path : PurePath) : Except PyErr AbsPath × FS :=
  let target := resolvePath fs (joinPath fm.cwd path)
  match mkdirAllE fs [] target.dropLast with
  | .error e => (.error e, fs)
  | .ok fs1 =>
    match touchFile fs1 target with
    | .error e => (.error e, fs1)
    | .ok fs2 => (.ok target, fs2)

/-- `FileManager.carrot`. -/
def FM.carrot (fm : FM) (w : World) (path : PurePath) : Except PyErr AbsPath × World :=
  ((carrotFS fm w.fs path).1, { w with fs := (carrotFS fm w.fs path).2 })

end FileBunny

namespace FileBunny

/-- A parsed subcommand of the filebunny CLI, with its arguments. -/
inductive Cmd where
  | spotC
  | hopC (path : Option PurePath)
  | peekC (showAll : Bool)
  | copyC (src dst : PurePath)
  | moveC (src dst : PurePath)
  | buryC (path : PurePath)
  | renameC (src dst : PurePath)
  | digC (path : PurePath)
  | carrotC (path : PurePath)
  deriving DecidableEq

/-- The environment the CLI entry point reads: the session marker variable
FILEBUNNY_BURROW (absent outside a burrow, the string value when set). -/
structure CliEnv where
  burrowFlag : Option String
  deriving DecidableEq

/-- The observable outcome of one invocation of `main` (cli.py lines
162-426): a printed notice followed by a clean return, the launch of the
interactive subshell at a starting directory, an exception escaping from the
`FileManager` construction, a successful command with its stdout lines, a
caught command failure reported as the single stderr line made of the
command name, the text " error: " and the exception, or an uncaught
exception whose traceback the interpreter prints before exiting. -/
inductive CliOut where
  | notice (msg : String)
  | burrow (dest : AbsPath)
  | initFailure (e : PyErr)
  | done (stdout : List String) (w : World)
  | failed (cmdName : String) (e : PyErr) (w : World)
  | crashed (e : PyErr) (w : World)
  deriving DecidableEq

/-- The process exit status of each outcome: returning from `main` exits 0,
`SystemExit(1)` and an uncaught exception both exit 1.  (For `burrow` this is
the status after the interactive shell ends normally.) -/
def exitCode : CliOut → Nat
  | .notice _ => 0
  | .burrow _ => 0
  | .initFailure _ => 1
  | .done _ _ => 0
  | .failed _ _ _ => 1
  | .crashed _ _ => 1

/-- `str(PosixPath)` for an absolute path. -/
def renderAbs (p : AbsPath) : String :=
  match p with
  | [] => "/"
  | _ => String.join (p.map (fun c => "/" ++ c))

/-- `str` of a command-line path argument, used in the success messages. -/
def renderPure (p : PurePath) : String :=
  (if p.absolute then "/" else "") ++ String.intercalate "/" p.parts

/-- An insertion of `x` into an already-sorted list, preserving the order of
equal keys. -/
def insertSorted (le : String → String → Bool) (x : String) :
    List String → List String
  | [] => [x]
  | y :: ys => if le x y then x :: y :: ys else y :: insertSorted le x ys

/-- A stable sort by the given comparison, modelling Python `sorted`. -/
def sortBy (le : String → String → Bool) : List String → List String
  | [] => []
  | x :: xs => insertSorted le x (sortBy le xs)

/-- The sort key of the peek listing (cli.py line 368): directories first,
then case-insensitive name order. -/
def peekLE (fs : FS) (root : AbsPath) (a b : String) : Bool :=
  let ka : Nat := if isDir fs (root ++ [a]) then 0 else 1
  let kb : Nat := if isDir fs (root ++ [b]) then 0 else 1
  decide (ka < kb) || (decide (ka = kb) && decide (a.toLower ≤ b.toLower))

/-- The sequence of entry names the peek listing prints (cli.py lines
365-400): children of the root sorted directories-first, dot-prefixed names
dropped unless the all flag is given.  The decorative columns (mode,
timestamp, size) are elided; this model keeps the name sequence only. -/
def peekNames (fs : FS) (root : AbsPath) (showAll : Bool) : List String :=
  let sorted := sortBy (peekLE fs root) (childNames fs root)
  if showAll then sorted else sorted.filter (fun n => !(n.startsWith "."))

/-- The direct-command dispatch of `main` (cli.py lines 352-426).  `spot`,
`hop`, `dig` and `carrot` run inside try/except blocks that report the
failure as a prefixed one-line diagnostic and raise `SystemExit(1)`;
`peek`, `copy`, `move`, `bury` and `rename` have no such handler, so their
exceptions escape `main` uncaught. -/
def runDirect (home : AbsPath) (c : Cmd) (fm : FM) (w : World) : CliOut :=
  match c with
  | .spotC => .done [renderAbs fm.spot] w
  | .hopC p =>
    match FM.hop home fm w p with
    | (.ok t, _, w2) => .done [renderAbs t] w2
    | (.error e, _, _) => .failed "hop" e w
  | .peekC showAll =>
    if isDir w.fs fm.cwd then .done (peekNames w.fs fm.cwd showAll) w
    else if pexists w.fs fm.cwd then .crashed (.notADirectory fm.cwd) w
    else .crashed (.notFound fm.cwd) w
  | .copyC s d =>
    match FM.copy fm w s d with
    | (.ok _, w2) => .done ["Copied " ++ renderPure s ++ " to " ++ renderPure d] w2
    | (.error e, _) => .crashed e w
  | .moveC s d =>
    match FM.move fm w s d with
    | (.ok _, w2) => .done ["Moved " ++ renderPure s ++ " to " ++ renderPure d] w2
    | (.error e, _) => .crashed e w
  | .buryC p =>
    match FM.delete fm w p with
    | (.ok _, w2) => .done ["Buried " ++ renderPure p] w2
    | (.error e, _) => .crashed e w
  | .renameC s d =>
    match FM.rename fm w s d with
    | (.ok _, w2) => .done ["Renamed " ++ renderPure s ++ " to " ++ renderPure d] w2
    | (.error e, _) => .crashed e w
  | .digC p =>
    match FM.dig fm w p with
    | (.ok t, w2) => .done [renderAbs t] w2
    | (.error e, _) => .failed "dig" e w
  | .carrotC p =>
    match FM.carrot fm w p with
    | (.ok t, w2) => .done [renderAbs t] w2
    | (.error e, _) => .failed "carrot" e w

/-- The post-parse behavior of `main` (cli.py lines 162-426).  With no
subcommand: an already-set session marker short-circuits to the fixed notice
before any `FileManager` is built, otherwise the interactive subshell is
launched at the persisted spot.  With a subcommand: a `FileManager` is built
from storage, its current directory is overwritten with the real process
working directory (line 347), and the command is dispatched. -/
def mainModel (env : CliEnv) (cmd : Option Cmd) (realCwd home : AbsPath)
    (w : World) : CliOut :=
  match cmd with
  | none =>
    if env.burrowFlag = some "1" then
      .notice "Already inside a filebunny burrow. Use 'leave' to exit."
    else
      match mkFileManager w.store realCwd with
      | .error e => .initFailure e
      | .ok fm => .burrow fm.spot
  | some c =>
    match mkFileManager w.store realCwd with
    | .error e => .initFailure e
    | .ok fm0 => runDirect home c { fm0 with cwd := realCwd } w

/-- An outcome with the store component of its final world blanked out: what
an invocation looks like to an observer who cannot see the durable record. -/
def stripStore : CliOut → CliOut
  | .done out w => .done out { w with store := .missing }
  | .failed n e w => .failed n e { w with store := .missing }
  | .crashed e w => .crashed e { w with store := .missing }
  | x => x

end FileBunny

namespace FileBunny

theorem fsFind_fsRemove (p q : AbsPath) (fs : FS) :
    fsFind (fsRemove p fs) q = if q = p then none else fsFind fs q := by
  induction fs with
  | nil => simp [fsRemove, fsFind]
  | cons e rest ih =>
    by_cases hep : e.1 = p
    · by_cases hqp : q = p
      · subst hqp
        simp [fsRemove, fsFind, hep, ih]
      · have h1 : ¬ (p = q) := fun h => hqp h.symm
        simp [fsRemove, fsFind, hep, hqp, h1, ih]
    · by_cases heq : e.1 = q
      · have hqp : ¬ (q = p) := fun h => hep (heq.symm ▸ h)
        simp [fsRemove, fsFind, hep, heq, hqp]
      · simp [fsRemove, fsFind, hep, heq, ih]

theorem fsFind_fsInsert_self (p : AbsPath) (n : Node) (fs : FS) :
    fsFind (fsInsert p n fs) p = some n := by
  simp [fsInsert, fsFind]

theorem fsFind_fsInsert_ne (p q : AbsPath) (n : Node) (fs : FS) (h : q ≠ p) :
    fsFind (fsInsert p n fs) q = fsFind fs q := by
  have hpq : ¬ p = q := fun e => h e.symm
  simp [fsInsert, fsFind, hpq, fsFind_fsRemove, h]

theorem isDir_iff (fs : FS) (p : AbsPath) :
    isDir fs p = true ↔ p = [] ∨ fsFind fs p = some Node.dir := by
  simp [isDir]

theorem pexists_iff (fs : FS) (p : AbsPath) :
    pexists fs p = true ↔ p = [] ∨ (fsFind fs p).isSome := by
  simp [pexists]

theorem followLinks_stop (fs : FS) (fuel : Nat) (q : AbsPath)
    (h : ∀ s, fsFind fs q ≠ some (Node.symlink s)) :
    followLinks fs fuel q = q := by
  cases fuel with
  | zero => rfl
  | succ n =>
    rw [followLinks]
    cases hf : fsFind fs q with
    | none => rfl
    | some node =>
      cases node with
      | file c => rfl
      | dir => rfl
      | symlink s => exact absurd hf (h s)

theorem mkdirAll_find_longer :
    ∀ (rest : List String) (fs : FS) (pre : AbsPath) (fs2 : FS),
      mkdirAll fs pre rest = .ok fs2 →
      ∀ q : AbsPath, pre.length + rest.length < q.length →
        fsFind fs2 q = fsFind fs q
  | [], fs, pre, fs2, h, q, _ => by
    simp [mkdirAll] at h
    subst h
    rfl
  | c :: cs, fs, pre, fs2, h, q, hlen => by
    rw [mkdirAll] at h
    cases hf : fsFind fs (pre ++ [c]) with
    | none =>
      rw [hf] at h
      have hlen2 : (pre ++ [c]).length + cs.length < q.length := by
        simp only [List.length_append, List.length_cons, List.length_nil] at hlen ⊢
        omega
      have ihq := mkdirAll_find_longer cs (fsInsert (pre ++ [c]) Node.dir fs)
        (pre ++ [c]) fs2 h q hlen2
      rw [ihq]
      have hne : q ≠ pre ++ [c] := by
        intro he
        rw [he] at hlen
        simp only [List.length_append, List.length_cons, List.length_nil] at hlen
        omega
      exact fsFind_fsInsert_ne _ _ _ _ hne
    | some node =>
      cases node with
      | dir =>
        rw [hf] at h
        have hlen2 : (pre ++ [c]).length + cs.length < q.length := by
          simp only [List.length_append, List.length_cons, List.length_nil] at hlen ⊢
          omega
        exact mkdirAll_find_longer cs fs (pre ++ [c]) fs2 h q hlen2
      | file co => rw [hf] at h; exact absurd h (by simp)
      | symlink s => rw [hf] at h; exact absurd h (by simp)

theorem mkdirAll_preserves_isDir :
    ∀ (rest : List String) (fs : FS) (pre : AbsPath) (fs2 : FS),
      mkdirAll fs pre rest = .ok fs2 →
      ∀ r : AbsPath, isDir fs r = true → isDir fs2 r = true
  | [], fs, pre, fs2, h, r, hr => by
    simp [mkdirAll] at h
    subst h
    exact hr
  | c :: cs, fs, pre, fs2, h, r, hr => by
    rw [mkdirAll] at h
    cases hf : fsFind fs (pre ++ [c]) with
    | none =>
      rw [hf] at h
      refine mkdirAll_preserves_isDir cs _ (pre ++ [c]) fs2 h r ?_
      by_cases hre : r = pre ++ [c]
      · subst hre
        rw [isDir_iff]
        right
        exact fsFind_fsInsert_self _ _ _
      · rw [isDir_iff] at hr ⊢
        rcases hr with hnil | hdir
        · exact Or.inl hnil
        · right
          rw [fsFind_fsInsert_ne _ _ _ _ hre]
          exact hdir
    | some node =>
      cases node with
      | dir =>
        rw [hf] at h
        exact mkdirAll_preserves_isDir cs fs (pre ++ [c]) fs2 h r hr
      | file co => rw [hf] at h; exact absurd h (by simp)
      | symlink s => rw [hf] at h; exact absurd h (by simp)

theorem mkdirAll_all_dirs :
    ∀ (rest : List String) (fs : FS) (pre : AbsPath) (fs2 : FS),
      isDir fs pre = true →
      mkdirAll fs pre rest = .ok fs2 →
      ∀ i, i ≤ rest.length → isDir fs2 (pre ++ rest.take i) = true
  | [], fs, pre, fs2, hpre, h, i, hi => by
    simp [mkdirAll] at h
    subst h
    simp only [Nat.le_zero, List.length_nil] at hi
    subst hi
    simpa using hpre
  | c :: cs, fs, pre, fs2, hpre, h, i, hi => by
    rw [mkdirAll] at h
    cases i with
    | zero =>
      simp only [List.take_zero, List.append_nil]
      cases hf : fsFind fs (pre ++ [c]) with
      | none =>
        rw [hf] at h
        refine mkdirAll_preserves_isDir cs _ (pre ++ [c]) fs2 h pre ?_
        rw [isDir_iff] at hpre ⊢
        rcases hpre with hnil | hdir
        · exact Or.inl hnil
        · right
          have hne : pre ≠ pre ++ [c] := by
            intro he
            have := congrArg List.length he
            simp at this
          rw [fsFind_fsInsert_ne _ _ _ _ hne]
          exact hdir
      | some node =>
        cases node with
        | dir =>
          rw [hf] at h
          exact mkdirAll_preserves_isDir cs fs (pre ++ [c]) fs2 h pre hpre
        | file co => rw [hf] at h; exact absurd h (by simp)
        | symlink s => rw [hf] at h; exact absurd h (by simp)
    | succ j =>
      have hj : j ≤ cs.length := by
        simpa using Nat.succ_le_succ_iff.mp hi
      have harr : pre ++ (c :: cs).take (j + 1) = (pre ++ [c]) ++ cs.take j := by
        simp
      rw [harr]
      cases hf : fsFind fs (pre ++ [c]) with
      | none =>
        rw [hf] at h
        refine mkdirAll_all_dirs cs _ (pre ++ [c]) fs2 ?_ h j hj
        rw [isDir_iff]
        right
        exact fsFind_fsInsert_self _ _ _
      | some node =>
        cases node with
        | dir =>
          rw [hf] at h
          refine mkdirAll_all_dirs cs fs (pre ++ [c]) fs2 ?_ h j hj
          rw [isDir_iff]
          right
          exact hf
        | file co => rw [hf] at h; exact absurd h (by simp)
        | symlink s => rw [hf] at h; exact absurd h (by simp)

theorem mkdirAll_noop :
    ∀ (rest : List String) (fs : FS) (pre : AbsPath),
      (∀ i, i ≤ rest.length → isDir fs (pre ++ rest.take i) = true) →
      mkdirAll fs pre rest = .ok fs
  | [], fs, pre, _ => by simp [mkdirAll]
  | c :: cs, fs, pre, h => by
    have h1 : isDir fs (pre ++ [c]) = true := by
      have := h 1 (by simp)
      simpa using this
    have hne : pre ++ [c] ≠ [] := by simp
    have hdir : fsFind fs (pre ++ [c]) = some Node.dir := by
      rcases (isDir_iff fs (pre ++ [c])).mp h1 with hnil | hd
      · exact absurd hnil hne
      · exact hd
    rw [mkdirAll, hdir]
    refine mkdirAll_noop cs fs (pre ++ [c]) ?_
    intro i hi
    have := h (i + 1) (by simpa using Nat.succ_le_succ hi)
    simpa using this

theorem rmtree_fsFind (fs : FS) (d q : AbsPath) :
    fsFind (rmtree fs d) q = if underPath d q then none else fsFind fs q := by
  induction fs with
  | nil => simp [rmtree, fsFind]
  | cons e rest ih =>
    by_cases hu : underPath d e.1
    · by_cases heq : e.1 = q
      · subst heq
        simp [rmtree, hu, ih, fsFind]
      · simp [rmtree, hu, ih, fsFind, heq]
    · by_cases heq : e.1 = q
      · subst heq
        simp [rmtree, hu, fsFind]
      · simp [rmtree, hu, ih, fsFind, heq]

end FileBunny

namespace FileBunny

theorem withSuffix_cons (c : String) (m : List String) (hm : m ≠ []) (suf : String) :
    withSuffix (c :: m) suf = c :: withSuffix m suf := by
  cases m with
  | nil => exact absurd rfl hm
  | cons a l => rfl

theorem withSuffix_dropLast : ∀ (p : AbsPath) (suf : String),
    (withSuffix p suf).dropLast = p.dropLast
  | [], _ => rfl
  | [c], _ => rfl
  | c :: c2 :: rest, suf => by
    have hne : withSuffix (c2 :: rest) suf ≠ [] := by
      cases rest with
      | nil => simp [withSuffix]
      | cons a l => simp [withSuffix]
    rw [withSuffix_cons c (c2 :: rest) (by simp) suf,
      List.dropLast_cons_of_ne_nil hne, List.dropLast_cons_of_ne_nil (by simp),
      withSuffix_dropLast (c2 :: rest) suf]

/-- C5: `Storage.write` serializes the full record into a temporary file
located in the same directory as the record file and then renames it over
the record in one step, so that at every intermediate point of the write the
record file holds either the complete old record or the complete new record,
never a partial one. -/
theorem write_atomic_steps (configDir : AbsPath) (cd : ConfigDir) (st : State)
    (partialContent : DiskContent) :
    (tmpStoragePath configDir).dropLast = (storagePath configDir).dropLast ∧
    ((writeSteps cd st partialContent).all
      (fun s => decide (s.record = cd.record ∨ s.record = serializeState st))) = true ∧
    (writeSteps cd st partialContent).getLast? = some (Storage.write cd st) := by
  refine ⟨?_, ?_, ?_⟩
  · simp only [tmpStoragePath]
    exact withSuffix_dropLast _ _
  · simp [writeSteps, Storage.write]
  · rfl

/-- C6 (amended): `Storage.read` self-heals when the record file is missing
or its text is not valid JSON, returning the real process working directory,
and returns the persisted spot from a complete record; but content that is
valid JSON of the wrong shape raises an uncaught `TypeError`, and content
that does not decode as UTF-8 raises an uncaught `UnicodeDecodeError`. -/
theorem read_self_healing_cases (realCwd sp : AbsPath) :
    Storage.read .missing realCwd = .ok ⟨realCwd⟩ ∧
    Storage.read .notJson realCwd = .ok ⟨realCwd⟩ ∧
    Storage.read (.record sp) realCwd = .ok ⟨sp⟩ ∧
    Storage.read .jsonNotRecord realCwd = .error .typeError ∧
    Storage.read .notUtf8 realCwd = .error .unicodeDecodeError :=
  ⟨rfl, rfl, rfl, rfl, rfl⟩

/-- C6 (counterexample): a durable record whose content is valid JSON but
not a record object (for example a JSON array, or an object with a different
key) makes `Storage.read` raise `TypeError` instead of returning the real
process working directory: `State(**data)` sits inside a `try` that catches
only `json.JSONDecodeError`. -/
theorem read_raises_on_wrong_shape :
    Storage.read .jsonNotRecord ["home", "user"] = .error .typeError ∧
    Storage.read .jsonNotRecord ["home", "user"] ≠ .ok ⟨["home", "user"]⟩ :=
  ⟨rfl, fun h => Except.noConfusion h⟩

/-- C3: invoking the CLI entry point with no subcommand while the session
marker FILEBUNNY_BURROW is set to the string 1 launches no interactive
shell: the fixed notice is printed and the process exits with status zero. -/
theorem nested_burrow_refused (env : CliEnv) (realCwd home : AbsPath) (w : World)
    (h : env.burrowFlag = some "1") :
    mainModel env none realCwd home w =
      .notice "Already inside a filebunny burrow. Use 'leave' to exit." ∧
    exitCode (mainModel env none realCwd home w) = 0 ∧
    (∀ dest, mainModel env none realCwd home w ≠ .burrow dest) := by
  have hmain : mainModel env none realCwd home w =
      .notice "Already inside a filebunny burrow. Use 'leave' to exit." := by
    simp [mainModel, h]
  refine ⟨hmain, ?_, ?_⟩
  · rw [hmain]
    rfl
  · intro dest hcontra
    rw [hmain] at hcontra
    exact CliOut.noConfusion hcontra

/-- C3 witness: a concrete invocation with the marker set prints the notice. -/
theorem nested_burrow_refused_witness :
    mainModel ⟨some "1"⟩ none ["b"] ["h"] ⟨[], .missing⟩ =
      .notice "Already inside a filebunny burrow. Use 'leave' to exit." ∧
    exitCode (mainModel ⟨some "1"⟩ none ["b"] ["h"] ⟨[], .missing⟩) = 0 :=
  ⟨(nested_burrow_refused ⟨some "1"⟩ ["b"] ["h"] ⟨[], .missing⟩ rfl).1,
   (nested_burrow_refused ⟨some "1"⟩ ["b"] ["h"] ⟨[], .missing⟩ rfl).2.1⟩

/-- C7: among the `FileManager` operations only `hop` writes the durable
record: its resulting store is the serialized new spot exactly on success
and the untouched old store on failure, while `list`, `copy`, `move`,
`rename`, `delete`, `dig` and `carrot` return the store unchanged on success
and failure alike (`spot` takes no world at all, by its type). -/
theorem only_hop_persists (home : AbsPath) (fm : FM) (w : World)
    (p src dst : PurePath) (q : Option PurePath) :
    (FM.hop home fm w q).2.2.store =
      (match hopFS home fm w.fs q with
       | .ok t => serializeState ⟨t⟩
       | .error _ => w.store) ∧
    (FM.list fm w).2.store = w.store ∧
    (FM.copy fm w src dst).2.store = w.store ∧
    (FM.move fm w src dst).2.store = w.store ∧
    (FM.rename fm w src dst).2.store = w.store ∧
    (FM.delete fm w p).2.store = w.store ∧
    (FM.dig fm w p).2.store = w.store ∧
    (FM.carrot fm w p).2.store = w.store := by
  refine ⟨?_, rfl, rfl, rfl, rfl, rfl, rfl, rfl⟩
  cases h : hopFS home fm w.fs q with
  | ok t => simp [FM.hop, h]
  | error e => simp [FM.hop, h]

/-- C8 (counterexample): the direct command `bury nope`, run where `nope`
does not exist, is dispatched with no try/except around it (cli.py lines
407-409), so the `FileNotFoundError` escapes `main` uncaught and the
interpreter prints a raw multi-line stack trace — not a one-line diagnostic
prefixed with the command name as the claim requires for every failing
direct command. -/
theorem bury_failure_uncaught :
    mainModel ⟨none⟩ (some (.buryC ⟨false, ["nope"]⟩)) ["base"] ["home"]
      ⟨[(["base"], Node.dir)], .record ["base"]⟩ =
    .crashed (.notFound ["base", "nope"])
      ⟨[(["base"], Node.dir)], .record ["base"]⟩ := by
  rfl

end FileBunny

namespace FileBunny

/-- C1: for an existing directory, `hop` resolves the path against the
current directory, adopts the resolved normalized absolute path as the new
spot, persists it to the durable record, and returns it; a freshly
constructed `FileManager` reading that same storage — as after a process
restart — has the same path as its spot (durability round-trip through
`Storage.write` then `Storage.read`). -/
theorem hop_spot_durability (home : AbsPath) (fm : FM) (w : World) (p : PurePath)
    (t realCwd2 : AbsPath)
    (ht : t = resolvePath w.fs (joinPath fm.cwd p))
    (hdir : fsFind w.fs t = some Node.dir) :
    FM.hop home fm w (some p) =
      (.ok t, ⟨t⟩, { w with store := serializeState ⟨t⟩ }) ∧
    FM.spot ⟨t⟩ = t ∧
    mkFileManager (serializeState ⟨t⟩) realCwd2 = .ok ⟨t⟩ := by
  subst ht
  have hpe : pexists w.fs (resolvePath w.fs (joinPath fm.cwd p)) = true := by
    simp [pexists, hdir]
  have hid : isDir w.fs (resolvePath w.fs (joinPath fm.cwd p)) = true := by
    simp [isDir, hdir]
  refine ⟨?_, rfl, rfl⟩
  simp [FM.hop, hopFS, hpe, hid]

/-- C1 witness: hopping into an existing subdirectory from a concrete world
persists and returns the resolved path, and a fresh manager reads it back. -/
theorem hop_spot_durability_witness :
    FM.hop ["home"] ⟨["base"]⟩
        ⟨[(["base"], Node.dir), (["base", "sub"], Node.dir)], .missing⟩
        (some ⟨false, ["sub"]⟩) =
      (.ok ["base", "sub"], ⟨["base", "sub"]⟩,
        ⟨[(["base"], Node.dir), (["base", "sub"], Node.dir)],
         serializeState ⟨["base", "sub"]⟩⟩) ∧
    FM.spot ⟨["base", "sub"]⟩ = ["base", "sub"] ∧
    mkFileManager (serializeState ⟨["base", "sub"]⟩) ["elsewhere"] =
      .ok ⟨["base", "sub"]⟩ :=
  hop_spot_durability ["home"] ⟨["base"]⟩
    ⟨[(["base"], Node.dir), (["base", "sub"], Node.dir)], .missing⟩
    ⟨false, ["sub"]⟩ ["base", "sub"] ["elsewhere"] (by decide) (by decide)

/-- C2: `hop` raises `FileNotFoundError` when the resolved target does not
exist and `NotADirectoryError` when it exists but is not a directory, and in
both failure cases it returns the in-memory manager and the world — current
directory and persisted spot included — exactly unchanged: both raises
happen before the assignment to `self.cwd` and before `_persist`. -/
theorem hop_error_frame (home : AbsPath) (fm : FM) (w : World) (p : PurePath)
    (t : AbsPath) (ht : t = resolvePath w.fs (joinPath fm.cwd p)) :
    (pexists w.fs t = false →
      FM.hop home fm w (some p) = (.error (.notFound t), fm, w)) ∧
    (pexists w.fs t = true → isDir w.fs t = false →
      FM.hop home fm w (some p) = (.error (.notADirectory t), fm, w)) := by
  subst ht
  constructor
  · intro hne
    simp [FM.hop, hopFS, hne]
  · intro hex hnd
    simp [FM.hop, hopFS, hex, hnd]

/-- C2 witness: hopping to a missing path and hopping into a regular file
from a concrete world fail with the right errors and change nothing. -/
theorem hop_error_frame_witness :
    FM.hop ["home"] ⟨["base"]⟩
        ⟨[(["base"], Node.dir), (["base", "f.txt"], Node.file "x")], .record ["base"]⟩
        (some ⟨false, ["nope"]⟩) =
      (.error (.notFound ["base", "nope"]), ⟨["base"]⟩,
        ⟨[(["base"], Node.dir), (["base", "f.txt"], Node.file "x")], .record ["base"]⟩) ∧
    FM.hop ["home"] ⟨["base"]⟩
        ⟨[(["base"], Node.dir), (["base", "f.txt"], Node.file "x")], .record ["base"]⟩
        (some ⟨false, ["f.txt"]⟩) =
      (.error (.notADirectory ["base", "f.txt"]), ⟨["base"]⟩,
        ⟨[(["base"], Node.dir), (["base", "f.txt"], Node.file "x")], .record ["base"]⟩) :=
  ⟨(hop_error_frame ["home"] ⟨["base"]⟩
      ⟨[(["base"], Node.dir), (["base", "f.txt"], Node.file "x")], .record ["base"]⟩
      ⟨false, ["nope"]⟩ ["base", "nope"] (by decide)).1 (by decide),
   (hop_error_frame ["home"] ⟨["base"]⟩
      ⟨[(["base"], Node.dir), (["base", "f.txt"], Node.file "x")], .record ["base"]⟩
      ⟨false, ["f.txt"]⟩ ["base", "f.txt"] (by decide)).2 (by decide) (by decide)⟩

/-- C4: a direct-mode invocation behaves identically under any two values of
the persisted spot: `main` overwrites the manager current directory with the
real process working directory (cli.py line 347) before dispatching, so the
printed output, the exit status, the error, and the resulting filesystem
agree; only the store component itself (which `hop` alone rewrites, to a
value independent of the old spot) is excluded by the `stripStore` view. -/
theorem direct_mode_ignores_spot (env : CliEnv) (c : Cmd) (realCwd home : AbsPath)
    (fs : FS) (s1 s2 : AbsPath) :
    stripStore (mainModel env (some c) realCwd home ⟨fs, .record s1⟩) =
    stripStore (mainModel env (some c) realCwd home ⟨fs, .record s2⟩) := by
  show stripStore (runDirect home c ⟨realCwd⟩ ⟨fs, .record s1⟩) =
    stripStore (runDirect home c ⟨realCwd⟩ ⟨fs, .record s2⟩)
  cases c with
  | spotC => rfl
  | hopC q =>
    cases h : hopFS home ⟨realCwd⟩ fs q with
    | ok t => simp [runDirect, FM.hop, h, stripStore]
    | error e => simp [runDirect, FM.hop, h, stripStore]
  | peekC showAll =>
    simp only [runDirect]
    by_cases h1 : isDir fs (FM.cwd ⟨realCwd⟩) = true
    · simp [h1, stripStore]
    · by_cases h2 : pexists fs (FM.cwd ⟨realCwd⟩) = true
      · simp [h1, h2, stripStore]
      · simp [h1, h2, stripStore]
  | copyC s d =>
    cases h : (copyFS ⟨realCwd⟩ fs s d).1 with
    | ok u => simp [runDirect, FM.copy, h, stripStore]
    | error e => simp [runDirect, FM.copy, h, stripStore]
  | moveC s d =>
    cases h : (moveFS ⟨realCwd⟩ fs s d).1 with
    | ok u => simp [runDirect, FM.move, h, stripStore]
    | error e => simp [runDirect, FM.move, h, stripStore]
  | buryC p =>
    cases h : (deleteFS ⟨realCwd⟩ fs p).1 with
    | ok u => simp [runDirect, FM.delete, h, stripStore]
    | error e => simp [runDirect, FM.delete, h, stripStore]
  | renameC s d =>
    cases h : (renameFS ⟨realCwd⟩ fs s d).1 with
    | ok u => simp [runDirect, FM.rename, h, stripStore]
    | error e => simp [runDirect, FM.rename, h, stripStore]
  | digC p =>
    cases h : (digFS ⟨realCwd⟩ fs p).1 with
    | ok t => simp [runDirect, FM.dig, h, stripStore]
    | error e => simp [runDirect, FM.dig, h, stripStore]
  | carrotC p =>
    cases h : (carrotFS ⟨realCwd⟩ fs p).1 with
    | ok t => simp [runDirect, FM.carrot, h, stripStore]
    | error e => simp [runDirect, FM.carrot, h, stripStore]

end FileBunny

namespace FileBunny

/-- C8 (amended): every failing direct command makes the process exit with
status 1, but only `hop`, `dig` and `carrot` (and `spot`, which cannot fail)
report the failure as a single-line diagnostic on the error stream prefixed
with the command name; a failing `peek`, `copy`, `move`, `bury` or `rename`
propagates its exception out of `main` uncaught, so the interpreter prints a
raw stack trace (still exiting 1).  Successful commands exit 0. -/
theorem direct_error_paths (env : CliEnv) (realCwd home : AbsPath) (fs : FS)
    (sp : AbsPath) :
    (∀ q e, hopFS home ⟨realCwd⟩ fs q = .error e →
      mainModel env (some (.hopC q)) realCwd home ⟨fs, .record sp⟩ =
        .failed "hop" e ⟨fs, .record sp⟩) ∧
    (∀ p e, (digFS ⟨realCwd⟩ fs p).1 = .error e →
      mainModel env (some (.digC p)) realCwd home ⟨fs, .record sp⟩ =
        .failed "dig" e ⟨fs, .record sp⟩) ∧
    (∀ p e, (carrotFS ⟨realCwd⟩ fs p).1 = .error e →
      mainModel env (some (.carrotC p)) realCwd home ⟨fs, .record sp⟩ =
        .failed "carrot" e ⟨fs, .record sp⟩) ∧
    (∀ s d e, (copyFS ⟨realCwd⟩ fs s d).1 = .error e →
      mainModel env (some (.copyC s d)) realCwd home ⟨fs, .record sp⟩ =
        .crashed e ⟨fs, .record sp⟩) ∧
    (∀ s d e, (moveFS ⟨realCwd⟩ fs s d).1 = .error e →
      mainModel env (some (.moveC s d)) realCwd home ⟨fs, .record sp⟩ =
        .crashed e ⟨fs, .record sp⟩) ∧
    (∀ p e, (deleteFS ⟨realCwd⟩ fs p).1 = .error e →
      mainModel env (some (.buryC p)) realCwd home ⟨fs, .record sp⟩ =
        .crashed e ⟨fs, .record sp⟩) ∧
    (∀ s d e, (renameFS ⟨realCwd⟩ fs s d).1 = .error e →
      mainModel env (some (.renameC s d)) realCwd home ⟨fs, .record sp⟩ =
        .crashed e ⟨fs, .record sp⟩) ∧
    (∀ a, isDir fs realCwd = false → pexists fs realCwd = true →
      mainModel env (some (.peekC a)) realCwd home ⟨fs, .record sp⟩ =
        .crashed (.notADirectory realCwd) ⟨fs, .record sp⟩) ∧
    (∀ a, pexists fs realCwd = false →
      mainModel env (some (.peekC a)) realCwd home ⟨fs, .record sp⟩ =
        .crashed (.notFound realCwd) ⟨fs, .record sp⟩) ∧
    (∀ n e w2, exitCode (CliOut.failed n e w2) = 1) ∧
    (∀ e w2, exitCode (CliOut.crashed e w2) = 1) ∧
    (∀ out w2, exitCode (CliOut.done out w2) = 0) := by
  refine ⟨?_, ?_, ?_, ?_, ?_, ?_, ?_, ?_, ?_,
    fun n e w2 => rfl, fun e w2 => rfl, fun out w2 => rfl⟩
  · intro q e h
    show runDirect home (.hopC q) ⟨realCwd⟩ ⟨fs, .record sp⟩ = _
    simp [runDirect, FM.hop, h]
  · intro p e h
    show runDirect home (.digC p) ⟨realCwd⟩ ⟨fs, .record sp⟩ = _
    simp [runDirect, FM.dig, h]
  · intro p e h
    show runDirect home (.carrotC p) ⟨realCwd⟩ ⟨fs, .record sp⟩ = _
    simp [runDirect, FM.carrot, h]
  · intro s d e h
    show runDirect home (.copyC s d) ⟨realCwd⟩ ⟨fs, .record sp⟩ = _
    simp [runDirect, FM.copy, h]
  · intro s d e h
    show runDirect home (.moveC s d) ⟨realCwd⟩ ⟨fs, .record sp⟩ = _
    simp [runDirect, FM.move, h]
  · intro p e h
    show runDirect home (.buryC p) ⟨realCwd⟩ ⟨fs, .record sp⟩ = _
    simp [runDirect, FM.delete, h]
  · intro s d e h
    show runDirect home (.renameC s d) ⟨realCwd⟩ ⟨fs, .record sp⟩ = _
    simp [runDirect, FM.rename, h]
  · intro a hid hex
    show runDirect home (.peekC a) ⟨realCwd⟩ ⟨fs, .record sp⟩ = _
    simp [runDirect, hid, hex]
  · intro a hex
    have hid : isDir fs realCwd = false := by
      cases hf : fsFind fs realCwd with
      | none =>
        by_cases hnil : realCwd = []
        · rw [hnil] at hex
          simp [pexists] at hex
        · simp [isDir, hf, hnil]
      | some n =>
        exfalso
        have hpe : pexists fs realCwd = true := by simp [pexists, hf]
        rw [hex] at hpe
        exact Bool.noConfusion hpe
    show runDirect home (.peekC a) ⟨realCwd⟩ ⟨fs, .record sp⟩ = _
    simp [runDirect, hid, hex]

/-- C8 witness: concretely, a failing direct `hop` is reported as the
prefixed one-line diagnostic with exit 1, a failing direct `bury` in the
same world escapes as an uncaught exception, and so does a failing direct
`peek` run from a working directory that no longer exists. -/
theorem direct_error_paths_witness :
    mainModel ⟨none⟩ (some (.hopC (some ⟨false, ["nope"]⟩))) ["base"] ["home"]
      ⟨[(["base"], Node.dir)], .record ["elsewhere"]⟩ =
      .failed "hop" (.notFound ["base", "nope"])
        ⟨[(["base"], Node.dir)], .record ["elsewhere"]⟩ ∧
    mainModel ⟨none⟩ (some (.buryC ⟨false, ["gone"]⟩)) ["base"] ["home"]
      ⟨[(["base"], Node.dir)], .record ["elsewhere"]⟩ =
      .crashed (.notFound ["base", "gone"])
        ⟨[(["base"], Node.dir)], .record ["elsewhere"]⟩ ∧
    mainModel ⟨none⟩ (some (.peekC false)) ["void"] ["home"]
      ⟨[(["base"], Node.dir)], .record ["elsewhere"]⟩ =
      .crashed (.notFound ["void"])
        ⟨[(["base"], Node.dir)], .record ["elsewhere"]⟩ :=
  ⟨(direct_error_paths ⟨none⟩ ["base"] ["home"] [(["base"], Node.dir)]
      ["elsewhere"]).1 (some ⟨false, ["nope"]⟩) (.notFound ["base", "nope"])
      rfl,
   (direct_error_paths ⟨none⟩ ["base"] ["home"] [(["base"], Node.dir)]
      ["elsewhere"]).2.2.2.2.2.1 ⟨false, ["gone"]⟩ (.notFound ["base", "gone"])
      rfl,
   (direct_error_paths ⟨none⟩ ["void"] ["home"] [(["base"], Node.dir)]
      ["elsewhere"]).2.2.2.2.2.2.2.2.1 false (by decide)⟩

end FileBunny

namespace FileBunny

/-- C10: `delete` fully resolves its path — following symbolic links — before
deciding how to delete (manager.py line 74): when the path is a symbolic
link to a directory, the link's target directory tree is removed recursively
while the link entry itself survives; and when the path is a symbolic link
whose target does not exist, `delete` raises `FileNotFoundError` for the
resolved target even though the link itself exists. -/
theorem delete_resolves_symlinks (fm : FM) (w : World) (p : PurePath)
    (L d s : AbsPath)
    (hL : normalize (joinPath fm.cwd p) = L)
    (hlink : fsFind w.fs L = some (Node.symlink s))
    (hres : resolvePath w.fs (joinPath fm.cwd p) = d) :
    (fsFind w.fs d = some Node.dir → underPath d L = false →
      FM.delete fm w p = (.ok (), { w with fs := rmtree w.fs d }) ∧
      fsFind (rmtree w.fs d) L = some (Node.symlink s) ∧
      (∀ q, underPath d q = true → fsFind (rmtree w.fs d) q = none)) ∧
    (fsFind w.fs d = none → d ≠ [] →
      FM.delete fm w p = (.error (.notFound d), w)) := by
  constructor
  · intro hdir hnotU
    have hid : isDir w.fs d = true := by simp [isDir, hdir]
    refine ⟨?_, ?_, ?_⟩
    · simp [FM.delete, deleteFS, hres, hid]
    · rw [rmtree_fsFind, hnotU]
      simpa using hlink
    · intro q hq
      rw [rmtree_fsFind, hq]
      rfl
  · intro hnone hdne
    have hid : isDir w.fs d = false := by simp [isDir, hnone, hdne]
    simp [FM.delete, deleteFS, hres, hid, hnone]

/-- C10 witness: in a concrete world, deleting a symlink to a directory
removes the target tree and keeps the link entry, and deleting a dangling
symlink raises `FileNotFoundError` for the missing target. -/
theorem delete_resolves_symlinks_witness :
    FM.delete ⟨["base"]⟩
      ⟨[(["base"], Node.dir), (["d"], Node.dir), (["d", "x"], Node.file "c"),
        (["base", "link"], Node.symlink ["d"]),
        (["base", "dangle"], Node.symlink ["gone"])], .missing⟩
      ⟨false, ["link"]⟩ =
      (.ok (), ⟨rmtree [(["base"], Node.dir), (["d"], Node.dir),
        (["d", "x"], Node.file "c"), (["base", "link"], Node.symlink ["d"]),
        (["base", "dangle"], Node.symlink ["gone"])] ["d"], .missing⟩) ∧
    fsFind (rmtree [(["base"], Node.dir), (["d"], Node.dir),
        (["d", "x"], Node.file "c"), (["base", "link"], Node.symlink ["d"]),
        (["base", "dangle"], Node.symlink ["gone"])] ["d"]) ["base", "link"] =
      some (Node.symlink ["d"]) ∧
    fsFind (rmtree [(["base"], Node.dir), (["d"], Node.dir),
        (["d", "x"], Node.file "c"), (["base", "link"], Node.symlink ["d"]),
        (["base", "dangle"], Node.symlink ["gone"])] ["d"]) ["d", "x"] = none ∧
    FM.delete ⟨["base"]⟩
      ⟨[(["base"], Node.dir), (["d"], Node.dir), (["d", "x"], Node.file "c"),
        (["base", "link"], Node.symlink ["d"]),
        (["base", "dangle"], Node.symlink ["gone"])], .missing⟩
      ⟨false, ["dangle"]⟩ =
      (.error (.notFound ["gone"]),
        ⟨[(["base"], Node.dir), (["d"], Node.dir), (["d", "x"], Node.file "c"),
          (["base", "link"], Node.symlink ["d"]),
          (["base", "dangle"], Node.symlink ["gone"])], .missing⟩) :=
  ⟨((delete_resolves_symlinks ⟨["base"]⟩
      ⟨[(["base"], Node.dir), (["d"], Node.dir), (["d", "x"], Node.file "c"),
        (["base", "link"], Node.symlink ["d"]),
        (["base", "dangle"], Node.symlink ["gone"])], .missing⟩
      ⟨false, ["link"]⟩ ["base", "link"] ["d"] ["d"]
      (by decide) (by decide) (by decide)).1 (by decide) (by decide)).1,
   ((delete_resolves_symlinks ⟨["base"]⟩
      ⟨[(["base"], Node.dir), (["d"], Node.dir), (["d", "x"], Node.file "c"),
        (["base", "link"], Node.symlink ["d"]),
        (["base", "dangle"], Node.symlink ["gone"])], .missing⟩
      ⟨false, ["link"]⟩ ["base", "link"] ["d"] ["d"]
      (by decide) (by decide) (by decide)).1 (by decide) (by decide)).2.1,
   ((delete_resolves_symlinks ⟨["base"]⟩
      ⟨[(["base"], Node.dir), (["d"], Node.dir), (["d", "x"], Node.file "c"),
        (["base", "link"], Node.symlink ["d"]),
        (["base", "dangle"], Node.symlink ["gone"])], .missing⟩
      ⟨false, ["link"]⟩ ["base", "link"] ["d"] ["d"]
      (by decide) (by decide) (by decide)).1 (by decide) (by decide)).2.2
      ["d", "x"] (by decide),
   (delete_resolves_symlinks ⟨["base"]⟩
      ⟨[(["base"], Node.dir), (["d"], Node.dir), (["d", "x"], Node.file "c"),
        (["base", "link"], Node.symlink ["d"]),
        (["base", "dangle"], Node.symlink ["gone"])], .missing⟩
      ⟨false, ["dangle"]⟩ ["base", "dangle"] ["gone"] ["gone"]
      (by decide) (by decide) (by decide)).2 (by decide) (by decide)⟩

end FileBunny

namespace FileBunny

/-- C9: `carrot` creates all missing ancestor directories and then creates
the file empty when it is absent; called again on the now-existing file it
succeeds, returns the same resolved absolute path, and leaves the file's
contents untouched (`touch(exist_ok=True)` never truncates). -/
theorem carrot_creates_and_preserves (fm : FM) (w : World) (p : PurePath)
    (t : AbsPath) (fs1 : FS)
    (ht : normalize (joinPath fm.cwd p) = t)
    (hne : t ≠ [])
    (hmk : mkdirAll w.fs [] t.dropLast = .ok fs1) :
    (fsFind w.fs t = none →
      FM.carrot fm w p = (.ok t, { w with fs := fsInsert t (Node.file "") fs1 }) ∧
      fsFind (fsInsert t (Node.file "") fs1) t = some (Node.file "") ∧
      (∀ i, i ≤ t.dropLast.length →
        isDir (fsInsert t (Node.file "") fs1) (t.dropLast.take i) = true) ∧
      FM.carrot fm { w with fs := fsInsert t (Node.file "") fs1 } p =
        (.ok t, { w with fs := fsInsert t (Node.file "") fs1 })) ∧
    (∀ c, fsFind w.fs t = some (Node.file c) →
      FM.carrot fm w p = (.ok t, { w with fs := fs1 }) ∧
      fsFind fs1 t = some (Node.file c)) := by
  have hpos : 0 < t.length := List.length_pos.mpr hne
  have hlen : t.dropLast.length < t.length := by
    rw [List.length_dropLast]
    omega
  have hfind1 : fsFind fs1 t = fsFind w.fs t := by
    refine mkdirAll_find_longer t.dropLast w.fs [] fs1 hmk t ?_
    simpa using hlen
  have hdirs1 : ∀ i, i ≤ t.dropLast.length → isDir fs1 (t.dropLast.take i) = true := by
    intro i hi
    have := mkdirAll_all_dirs t.dropLast w.fs [] fs1 (by simp [isDir]) hmk i hi
    simpa using this
  have hpar : isDir fs1 t.dropLast = true := by
    have := hdirs1 t.dropLast.length le_rfl
    rwa [List.take_length] at this
  constructor
  · intro habs
    have hres1 : resolvePath w.fs (joinPath fm.cwd p) = t := by
      rw [resolvePath, ht]
      refine followLinks_stop _ _ _ ?_
      intro s hs
      rw [habs] at hs
      exact Option.noConfusion hs
    have hfs1t : fsFind fs1 t = none := by rw [hfind1, habs]
    have hc1 : carrotFS fm w.fs p = (.ok t, fsInsert t (Node.file "") fs1) := by
      simp [carrotFS, hres1, mkdirAllE, hmk, touchFile, hfs1t, hpar]
    have hanc : ∀ i, i ≤ t.dropLast.length →
        isDir (fsInsert t (Node.file "") fs1) (t.dropLast.take i) = true := by
      intro i hi
      have hid1 := hdirs1 i hi
      have hneq : t.dropLast.take i ≠ t := by
        intro he
        have hle : (t.dropLast.take i).length ≤ t.dropLast.length := by
          simp [List.length_take]
        rw [he] at hle
        omega
      rw [isDir_iff] at hid1 ⊢
      rcases hid1 with hnil | hdir
      · exact Or.inl hnil
      · right
        rw [fsFind_fsInsert_ne _ _ _ _ hneq]
        exact hdir
    have hres2 : resolvePath (fsInsert t (Node.file "") fs1)
        (joinPath fm.cwd p) = t := by
      rw [resolvePath, ht]
      refine followLinks_stop _ _ _ ?_
      intro s hs
      rw [fsFind_fsInsert_self] at hs
      simp at hs
    have hmk2 : mkdirAll (fsInsert t (Node.file "") fs1) [] t.dropLast =
        .ok (fsInsert t (Node.file "") fs1) := by
      refine mkdirAll_noop t.dropLast _ [] ?_
      intro i hi
      simpa using hanc i hi
    have hc2 : carrotFS fm (fsInsert t (Node.file "") fs1) p =
        (.ok t, fsInsert t (Node.file "") fs1) := by
      simp [carrotFS, hres2, mkdirAllE, hmk2, touchFile, fsFind_fsInsert_self]
    refine ⟨?_, fsFind_fsInsert_self _ _ _, hanc, ?_⟩
    · simp [FM.carrot, hc1]
    · simp [FM.carrot, hc2]
  · intro c hfile
    have hres1 : resolvePath w.fs (joinPath fm.cwd p) = t := by
      rw [resolvePath, ht]
      refine followLinks_stop _ _ _ ?_
      intro s hs
      rw [hfile] at hs
      simp at hs
    have hfs1t : fsFind fs1 t = some (Node.file c) := by rw [hfind1, hfile]
    have hc1 : carrotFS fm w.fs p = (.ok t, fs1) := by
      simp [carrotFS, hres1, mkdirAllE, hmk, touchFile, hfs1t]
    exact ⟨by simp [FM.carrot, hc1], hfs1t⟩

/-- C9 witness: carrot on an absent nested file creates the parents and the
empty file; carrot again on the created file changes nothing and returns
the same path; and carrot on an existing file with contents keeps them. -/
theorem carrot_creates_and_preserves_witness :
    FM.carrot ⟨["base"]⟩ ⟨[(["base"], Node.dir)], .missing⟩
        ⟨false, ["a", "b", "note.txt"]⟩ =
      (.ok ["base", "a", "b", "note.txt"],
        ⟨fsInsert ["base", "a", "b", "note.txt"] (Node.file "")
          (fsInsert ["base", "a", "b"] Node.dir
            (fsInsert ["base", "a"] Node.dir [(["base"], Node.dir)])),
         .missing⟩) ∧
    FM.carrot ⟨["base"]⟩
        ⟨fsInsert ["base", "a", "b", "note.txt"] (Node.file "")
          (fsInsert ["base", "a", "b"] Node.dir
            (fsInsert ["base", "a"] Node.dir [(["base"], Node.dir)])),
         .missing⟩
        ⟨false, ["a", "b", "note.txt"]⟩ =
      (.ok ["base", "a", "b", "note.txt"],
        ⟨fsInsert ["base", "a", "b", "note.txt"] (Node.file "")
          (fsInsert ["base", "a", "b"] Node.dir
            (fsInsert ["base", "a"] Node.dir [(["base"], Node.dir)])),
         .missing⟩) ∧
    FM.carrot ⟨["base"]⟩
        ⟨[(["base"], Node.dir), (["base", "kept.txt"], Node.file "precious")],
          .missing⟩
        ⟨false, ["kept.txt"]⟩ =
      (.ok ["base", "kept.txt"],
        ⟨[(["base"], Node.dir), (["base", "kept.txt"], Node.file "precious")],
          .missing⟩) ∧
    fsFind [(["base"], Node.dir), (["base", "kept.txt"], Node.file "precious")]
        ["base", "kept.txt"] = some (Node.file "precious") :=
  ⟨((carrot_creates_and_preserves ⟨["base"]⟩ ⟨[(["base"], Node.dir)], .missing⟩
      ⟨false, ["a", "b", "note.txt"]⟩ ["base", "a", "b", "note.txt"]
      (fsInsert ["base", "a", "b"] Node.dir
        (fsInsert ["base", "a"] Node.dir [(["base"], Node.dir)]))
      (by decide) (by decide) rfl).1 (by decide)).1,
   ((carrot_creates_and_preserves ⟨["base"]⟩ ⟨[(["base"], Node.dir)], .missing⟩
      ⟨false, ["a", "b", "note.txt"]⟩ ["base", "a", "b", "note.txt"]
      (fsInsert ["base", "a", "b"] Node.dir
        (fsInsert ["base", "a"] Node.dir [(["base"], Node.dir)]))
      (by decide) (by decide) rfl).1 (by decide)).2.2.2,
   ((carrot_creates_and_preserves ⟨["base"]⟩
      ⟨[(["base"], Node.dir), (["base", "kept.txt"], Node.file "precious")],
        .missing⟩
      ⟨false, ["kept.txt"]⟩ ["base", "kept.txt"] 
      [(["base"], Node.dir), (["base", "kept.txt"], Node.file "precious")]
      (by decide) (by decide) rfl).2 "precious" (by decide)).1,
   ((carrot_creates_and_preserves ⟨["base"]⟩
      ⟨[(["base"], Node.dir), (["base", "kept.txt"], Node.file "precious")],
        .missing⟩
      ⟨false, ["kept.txt"]⟩ ["base", "kept.txt"] 
      [(["base"], Node.dir), (["base", "kept.txt"], Node.file "precious")]
      (by decide) (by decide) rfl).2 "precious" (by decide)).2⟩

end FileBunny
